import Mathlib

/-!
Verification of the medical-telegram-warehouse ELT pipeline against its
natural-language specification.

The development shallowly embeds the claim-relevant parts of the source:

* `src/src/yolo_detect.py` — the pure image classifier (`classify_image`)
  and the top-confidence computation of `process_image`;
* `src/scripts/load_to_postgres.py` — the upsert loader for raw messages
  (`insert_messages`, `main`);
* `src/scripts/load_yolo_results.py` — the snapshot loader for detection
  results (`load_yolo_results`, `main`);
* `src/pipeline.py` — the Dagster ops that wrap the loader processes
  (`load_raw_to_postgres`, `run_dbt_transformations`, `load_yolo_results`).

Modelling conventions: Python floats that only ever hold parsed decimal
confidences are modelled as rationals (no claim depends on IEEE rounding);
timestamps are abstract `Nat` instants; a PostgreSQL table with primary key
K is a function from K to `Option row` (the key constraint makes a row per
key unique); a psycopg2 connection commits only at explicit `conn.commit()`
calls, and an uncaught exception before a commit rolls the transaction back
to the previously committed state (PostgreSQL TRUNCATE is transactional, so
it also rolls back).
-/

/-! ## Generic keyed-table machinery

A table keyed by `κ` storing values `ν` is `κ → Option ν`.  A single SQL
`INSERT ... ON CONFLICT (key) DO UPDATE SET <all fields> = EXCLUDED.<...>`
statement for a prepared row `r` stores `val r` at `key r`, replacing any
previous value wholesale.  A Python dict comprehension over a list has the
same shape: later entries overwrite earlier ones.
-/

def upsertKV {κ ρ ν : Type} [DecidableEq κ] (key : ρ → κ) (val : ρ → ν)
    (m : κ → Option ν) (r : ρ) : κ → Option ν :=
  fun k => if key r = k then some (val r) else m k

/-- The last element of `rs` whose key is `k`, if any (left-to-right fold,
later elements shadow earlier ones). -/
def lastWith {κ ρ : Type} [DecidableEq κ] (key : ρ → κ)
    (rs : List ρ) (k : κ) : Option ρ :=
  rs.foldl (fun acc r => if key r = k then some r else acc) none

/-! ## Classifier (`src/src/yolo_detect.py`)

`Detection` mirrors the dictionaries built in `process_image` (lines
144-148): keys `class` (COCO class id), `class_name`, `confidence`.  The
Python field name `class` is a keyword, so it is `cls` here.  Confidences
are modelled as rationals.
-/

structure Detection where
  cls : Nat
  className : String
  confidence : ℚ
deriving DecidableEq

/-- COCO class id for `person` (line 40). -/
def PERSON_CLASS : Nat := 0

/-- COCO class id for `bottle` (line 41). -/
def BOTTLE_CLASS : Nat := 39

/-- COCO class id for `cup` (line 42). -/
def CUP_CLASS : Nat := 41

/-- COCO class id for `bowl` (line 43). -/
def BOWL_CLASS : Nat := 46

/-- Line 65: `detected_classes = [d['class'] for d in detections]`. -/
def detectedClasses (detections : List Detection) : List Nat :=
  detections.map (·.cls)

/-- Line 66: `class_confidences = \x7bd['class']: d['confidence'] for d in
detections\x7d`.  A Python dict comprehension iterates left to right and a
later entry for the same key overwrites the earlier one, which is exactly
a left fold of keyed upserts starting from the empty map. -/
def classConfidences (detections : List Detection) : Nat → Option ℚ :=
  detections.foldl (upsertKV Detection.cls Detection.confidence) (fun _ => none)

/-- Lines 49-80: `classify_image`.  Returns the category string and the
class-confidence map. -/
def classifyImage (detections : List Detection) : String × (Nat → Option ℚ) :=
  let dc := detectedClasses detections
  let hasPerson : Bool := dc.contains PERSON_CLASS
  let hasProduct : Bool :=
    [BOTTLE_CLASS, CUP_CLASS, BOWL_CLASS].any (fun c => dc.contains c)
  let category : String :=
    if hasPerson && hasProduct then "promotional"
    else if hasProduct && !hasPerson then "product_display"
    else if hasPerson && !hasProduct then "lifestyle"
    else "other"
  (category, classConfidences detections)

/-- Line 155: `max(detections, key=lambda x: x['confidence'])` guarded by
`if detections else None`.  Python `max` keeps the first maximal element:
a later element replaces the current one only when strictly greater. -/
def topDetection (detections : List Detection) : Option Detection :=
  detections.foldl
    (fun acc d =>
      match acc with
      | none => some d
      | some m => if d.confidence > m.confidence then some d else some m)
    none

/-- Line 157: `top_confidence = top_detection['confidence'] if top_detection
else 0.0`. -/
def topConfidence (detections : List Detection) : ℚ :=
  match topDetection detections with
  | some d => d.confidence
  | none => 0

/-- Modelled from the spec's words (§4.2): the value the spec claims for the
confidence map — "mapping from class_id to its highest observed confidence
among detections of that class".  Used only to compare against the map the
source actually builds. -/
def specMaxConfidence (detections : List Detection) (c : Nat) : Option ℚ :=
  ((detections.filter (fun d => d.cls = c)).map (·.confidence)).max?

/-! ## Upsert loader (`src/scripts/load_to_postgres.py`)

`Msg` mirrors one JSON message dictionary after the per-field extraction of
lines 111-130 of `insert_messages`: `message_date` has already been parsed
(a malformed date degrades to `none`, line 118), `has_media` defaults to
`False` (line 125).  `Row` is one row of `raw.telegram_messages` (lines
58-71), whose primary key is `(message_id, channel_name)`.
-/

structure Msg where
  messageId : Nat
  channelName : Option String
  messageDate : Option Nat
  messageText : Option String
  hasMedia : Bool
  imagePath : Option String
  views : Option Int
  forwards : Option Int
deriving DecidableEq

structure Row where
  messageId : Nat
  channelName : String
  messageDate : Option Nat
  messageText : Option String
  hasMedia : Bool
  imagePath : Option String
  views : Option Int
  forwards : Option Int
  loadedAt : Nat
deriving DecidableEq

/-- Line 122: `msg.get('channel_name') or channel_name`.  Python `or`
falls through on every falsy value, so both a missing key and an empty
string select the fallback channel name. -/
def orFalsy (s : Option String) (fallback : String) : String :=
  match s with
  | some v => if v = "" then fallback else v
  | none => fallback

/-- Lines 120-130: the tuple appended to `insert_data`, with `loaded_at`
taken to be the single instant `now` of this loader call. -/
def mkRow (channel : String) (now : Nat) (m : Msg) : Row :=
  { messageId := m.messageId
    channelName := orFalsy m.channelName channel
    messageDate := m.messageDate
    messageText := m.messageText
    hasMedia := m.hasMedia
    imagePath := m.imagePath
    views := m.views
    forwards := m.forwards
    loadedAt := now }

abbrev RawKey := Nat × String

abbrev RawTable := RawKey → Option Row

def emptyRaw : RawTable := fun _ => none

/-- The natural key of a stored row (the primary key of line 69). -/
def rowKey (r : Row) : RawKey :=
  (r.messageId, r.channelName)

/-- The natural key a message will be stored under. -/
def msgKey (channel : String) (m : Msg) : RawKey :=
  (m.messageId, orFalsy m.channelName channel)

/-- The committed effect of a successful `insert_messages` call: every
prepared row executed in order as `INSERT ... ON CONFLICT (message_id,
channel_name) DO UPDATE SET <every non-key field> = EXCLUDED.<field>`
(lines 133-146), i.e. a left fold of whole-row upserts. -/
def applyBatch (t : RawTable) (msgs : List Msg) (channel : String)
    (now : Nat) : RawTable :=
  (msgs.map (mkRow channel now)).foldl (upsertKV rowKey id) t

/-- Lines 149-150: `execute_batch` executes the prepared statements one by
one, in order, all inside the single transaction opened on the connection.
`page_size=1000` only groups statements into network round-trips; there is
no commit between pages.  A statement that raises (`fails m = true`) aborts
the whole call with the transaction uncommitted. -/
def execBatch (t : RawTable) (msgs : List Msg) (channel : String)
    (now : Nat) (fails : Msg → Bool) : Except Unit RawTable :=
  msgs.foldl
    (fun acc m =>
      acc.bind (fun tb =>
        if fails m then Except.error ()
        else Except.ok (upsertKV rowKey id tb (mkRow channel now m))))
    (Except.ok t)

/-- Lines 103-157: `insert_messages`.  Empty input returns 0 without
touching the database (lines 105-107).  Otherwise all statements run and
the single `conn.commit()` of line 151 publishes them; on any statement
failure the `conn.rollback()` of line 155 discards the entire call's work
and the exception is re-raised (line 157). -/
def insertMessages (t : RawTable) (msgs : List Msg) (channel : String)
    (now : Nat) (fails : Msg → Bool) : Except Unit (RawTable × Nat) :=
  if msgs.isEmpty then Except.ok (t, 0)
  else
    match execBatch t msgs channel now fails with
    | Except.ok t2 => Except.ok (t2, msgs.length)
    | Except.error e => Except.error e

/-- The collaborator-visible outcome of one `insert_messages` call: the
committed table afterwards, and the returned count (`none` when the call
raised — the rollback of line 155 leaves the previously committed state). -/
def insertRun (t : RawTable) (msgs : List Msg) (channel : String)
    (now : Nat) (fails : Msg → Bool) : RawTable × Option Nat :=
  match insertMessages t msgs channel now fails with
  | Except.ok (t2, n) => (t2, some n)
  | Except.error _ => (t, none)

/-- A run in which no statement raises. -/
def noFail : Msg → Bool := fun _ => false

/-! ## Detection loader (`src/scripts/load_yolo_results.py`)

`DCsvRow` is one parsed CSV row as prepared in lines 98-108 (integer and
float cells already converted, empty cells degraded to `none`/defaults).
The destination `raw.yolo_detections` (lines 52-64) has primary key
`(message_id, channel_name)` and an audit column `loaded_at`; a stored
value is the pair of the inserted row and its load instant.
-/

structure DCsvRow where
  messageId : Nat
  channelName : String
  imagePath : String
  detectedObjectsCount : Nat
  detectedClasses : Option String
  topDetectedClass : Option String
  topConfidence : ℚ
  imageCategory : String
  allConfidences : Option String
deriving DecidableEq

abbrev DKey := Nat × String

abbrev DTable := DKey → Option (DCsvRow × Nat)

def emptyD : DTable := fun _ => none

def dkey (r : DCsvRow) : DKey :=
  (r.messageId, r.channelName)

/-- The state built inside the transaction of `load_yolo_results` when every
insert statement succeeds: `TRUNCATE TABLE raw.yolo_detections` (line 90)
empties the table, then every CSV row is upserted in order (lines 111-128;
after the truncate the `ON CONFLICT` clause only merges duplicate keys
within the snapshot itself, later rows winning). -/
def snapshotTable (rows : List DCsvRow) (now : Nat) : DTable :=
  rows.foldl (upsertKV dkey (fun r => (r, now))) emptyD

/-- Lines 82-132: `load_yolo_results`.  A missing CSV file (`csv = none`)
returns 0 before any statement runs (lines 84-86).  Otherwise the truncate
and all inserts execute in the one open transaction and `conn.commit()`
(line 129) publishes them; if any statement raises, nothing was committed
(PostgreSQL TRUNCATE is transactional), so the committed state is
untouched and the exception propagates. -/
def loadYoloResults (t : DTable) (csv : Option (List DCsvRow)) (now : Nat)
    (fails : DCsvRow → Bool) : Except Unit (DTable × Nat) :=
  match csv with
  | none => Except.ok (t, 0)
  | some rows =>
    if rows.any fails then Except.error ()
    else Except.ok (snapshotTable rows now, rows.length)

/-- The collaborator-visible outcome of one loader process run: committed
table and returned count; `none` means the exception reached `main`, which
re-raises it (lines 157-159), so the process dies with the transaction
rolled back. -/
def loadYoloRun (t : DTable) (csv : Option (List DCsvRow)) (now : Nat)
    (fails : DCsvRow → Bool) : DTable × Option Nat :=
  match loadYoloResults t csv now fails with
  | Except.ok (t2, n) => (t2, some n)
  | Except.error _ => (t, none)

/-- A detection-loader run in which no statement raises. -/
def noFailD : DCsvRow → Bool := fun _ => false

/-! ## Pipeline ops (`src/pipeline.py`)

Each Dagster op invokes its stage as `subprocess.run([...], check=True)`:
the op raises `CalledProcessError` — and therefore fails — exactly when the
child process exits non-zero, and otherwise reports success.
-/

inductive StageStatus where
  | succeeded
  | failed
deriving DecidableEq

/-- `subprocess.run(check=True)` followed by the op's re-raise of
`CalledProcessError`: the stage outcome is decided by the exit status
alone. -/
def subprocessCheck (exitCode : Nat) : StageStatus :=
  if exitCode = 0 then StageStatus.succeeded else StageStatus.failed

/-- Exit status of the `load_to_postgres.py` process (`main`, lines
170-229).  When the connection attempt raises, `main` logs the error and
plain-`return`s (lines 178-181), so the interpreter exits with status 0.
When an insert batch raises, the error is re-raised (lines 224-226) and
the process exits non-zero. -/
def loadToPostgresExit (connOk : Bool) (insertRaises : Bool) : Nat :=
  if !connOk then 0
  else if insertRaises then 1
  else 0

/-- Outcome of the `run_dbt_transformations` op (lines 143-197): stage
status plus the `test_status` string recorded in the materialization
metadata (line 174: `"passed" if test_result.returncode == 0 else
"failed"`; no metadata is emitted when the primary `dbt run` fails,
because the op raises before `log_event`). -/
structure DbtStageOutcome where
  status : StageStatus
  testStatusMeta : Option String
deriving DecidableEq

def runDbtTransformations (runExit testExit : Nat) : DbtStageOutcome :=
  if runExit = 0 then
    { status := StageStatus.succeeded
      testStatusMeta := some (if testExit = 0 then "passed" else "failed") }
  else
    { status := StageStatus.failed, testStatusMeta := none }

/-- Outcome of the `load_yolo_results` op (lines 253-303): stage status
plus the metadata keys of the emitted materialization event (line 288:
only `loader_output` and `status`).  The `dbt run --select
fct_image_detections` rebuild (lines 277-282) runs without `check=True`
and its captured result `dbt_result` is never read afterwards, so the
outcome does not depend on the rebuild's exit status. -/
structure YoloLoadOutcome where
  status : StageStatus
  metadataKeys : List String
deriving DecidableEq

def loadYoloResultsOp (loaderExit rebuildExit : Nat) : YoloLoadOutcome :=
  if loaderExit = 0 then
    { status := StageStatus.succeeded
      metadataKeys := ["loader_output", "status"] }
  else
    { status := StageStatus.failed, metadataKeys := [] }

/-- Two detections of the same class (person, class 0), the higher
confidence first. -/
def dupClassDetections : List Detection :=
  [{ cls := 0, className := "person", confidence := mkRat 9 10 },
   { cls := 0, className := "person", confidence := mkRat 1 2 }]

/-- A record with key (1, "x"), text "A" and a non-null view count. -/
def msgA : Msg :=
  { messageId := 1, channelName := none, messageDate := none
    messageText := some "A", hasMedia := false, imagePath := none
    views := some 5, forwards := none }

/-- A record with the same key (1, "x"), text "B" and a null view count. -/
def msgB : Msg :=
  { messageId := 1, channelName := none, messageDate := none
    messageText := some "B", hasMedia := false, imagePath := none
    views := none, forwards := none }

/-- A detection row with key (1, "x") from a prior run. -/
def drowA : DCsvRow :=
  { messageId := 1, channelName := "x", imagePath := "p1"
    detectedObjectsCount := 0, detectedClasses := none
    topDetectedClass := none, topConfidence := 0
    imageCategory := "other", allConfidences := none }

/-- A detection row with key (2, "x") from the next run. -/
def drowB : DCsvRow :=
  { messageId := 2, channelName := "x", imagePath := "p2"
    detectedObjectsCount := 1, detectedClasses := some "39"
    topDetectedClass := some "bottle", topConfidence := mkRat 1 2
    imageCategory := "product_display", allConfidences := some "m" }

/-- The statement for the row keyed (2, "x") raises. -/
def failsOnTwo : DCsvRow → Bool := fun r => r.messageId == 2

/-- Minimal records with distinct ids 0..1000 for one channel: 1001 of
them, enough to span two `execute_batch` pages of 1000 statements. -/
def manyMsgs : List Msg :=
  (List.range 1001).map (fun i =>
    { messageId := i, channelName := none, messageDate := none
      messageText := none, hasMedia := false, imagePath := none
      views := none, forwards := none })

/-- Only the statement for record id 1000 — the lone record of the second
page — raises. -/
def failsLastMsg : Msg → Bool := fun m => m.messageId == 1000

/-! ## Lemmas and claim theorems -/

theorem lastWith_foldl_acc {κ ρ : Type} [DecidableEq κ] (key : ρ → κ)
    (k : κ) (rs : List ρ) (a : Option ρ) :
    rs.foldl (fun acc r => if key r = k then some r else acc) a
      = match lastWith key rs k with
        | some r => some r
        | none => a := by
  induction rs generalizing a with
  | nil => simp [lastWith]
  | cons r rs ih =>
    have hcons : lastWith key (r :: rs) k
        = rs.foldl (fun acc x => if key x = k then some x else acc)
            (if key r = k then some r else none) := by
      simp [lastWith]
    rw [List.foldl_cons, ih, hcons, ih]
    cases h : lastWith key rs k with
    | some x => rfl
    | none => by_cases hk : key r = k <;> simp [hk]

theorem lastWith_cons {κ ρ : Type} [DecidableEq κ] (key : ρ → κ)
    (r : ρ) (rs : List ρ) (k : κ) :
    lastWith key (r :: rs) k
      = match lastWith key rs k with
        | some x => some x
        | none => if key r = k then some r else none := by
  have : lastWith key (r :: rs) k
      = rs.foldl (fun acc x => if key x = k then some x else acc)
          (if key r = k then some r else none) := by
    simp [lastWith]
  rw [this, lastWith_foldl_acc]

theorem applyKV_apply {κ ρ ν : Type} [DecidableEq κ] (key : ρ → κ)
    (val : ρ → ν) (rs : List ρ) (m : κ → Option ν) (k : κ) :
    (rs.foldl (upsertKV key val) m) k
      = match lastWith key rs k with
        | some r => some (val r)
        | none => m k := by
  induction rs generalizing m with
  | nil => simp [lastWith]
  | cons r rs ih =>
    rw [List.foldl_cons, ih, lastWith_cons]
    cases h : lastWith key rs k with
    | some x => rfl
    | none =>
      by_cases hk : key r = k <;> simp [upsertKV, hk]

theorem lastWith_mem {κ ρ : Type} [DecidableEq κ] (key : ρ → κ)
    (rs : List ρ) (k : κ) (r : ρ) (h : lastWith key rs k = some r) :
    r ∈ rs ∧ key r = k := by
  induction rs with
  | nil => simp [lastWith] at h
  | cons x rs ih =>
    rw [lastWith_cons] at h
    cases hx : lastWith key rs k with
    | some y =>
      rw [hx] at h
      cases h
      have hm := ih hx
      exact ⟨List.mem_cons_of_mem _ hm.1, hm.2⟩
    | none =>
      rw [hx] at h
      by_cases hk : key x = k
      · simp only [hk, if_pos rfl] at h
        cases h
        exact ⟨List.mem_cons_self _ _, hk⟩
      · simp [hk] at h

theorem lastWith_eq_none_iff {κ ρ : Type} [DecidableEq κ] (key : ρ → κ)
    (rs : List ρ) (k : κ) :
    lastWith key rs k = none ↔ ∀ r ∈ rs, key r ≠ k := by
  induction rs with
  | nil => simp [lastWith]
  | cons r rs ih =>
    rw [lastWith_cons]
    cases h : lastWith key rs k with
    | some x =>
      have hm := lastWith_mem key rs k x h
      constructor
      · intro hx; cases hx
      · intro hall
        exact absurd hm.2 (hall x (List.mem_cons_of_mem _ hm.1))
    | none =>
      by_cases hk : key r = k
      · constructor
        · intro hx; simp [hk] at hx
        · intro hall
          exact absurd hk (hall r (List.mem_cons_self _ _))
      · constructor
        · intro _ x hx
          rcases List.mem_cons.mp hx with hx | hx
          · subst hx; exact hk
          · exact (ih.mp h) x hx
        · intro _; simp [hk]

theorem foldl_except_error {α β : Type} (g : β → α → Except Unit α)
    (l : List β) (e : Unit) :
    l.foldl (fun acc m => acc.bind (fun x => g m x)) (Except.error e)
      = Except.error e := by
  induction l with
  | nil => rfl
  | cons m ms ih => simpa [Except.bind] using ih

theorem execBatch_ok_of_all {t : RawTable} {msgs : List Msg}
    {channel : String} {now : Nat} {fails : Msg → Bool}
    (h : ∀ m ∈ msgs, fails m = false) :
    execBatch t msgs channel now fails
      = Except.ok (applyBatch t msgs channel now) := by
  induction msgs generalizing t with
  | nil => rfl
  | cons m ms ih =>
    have hm : fails m = false := h m (List.mem_cons_self _ _)
    have hms : ∀ x ∈ ms, fails x = false :=
      fun x hx => h x (List.mem_cons_of_mem _ hx)
    simp only [execBatch, List.foldl_cons, Except.bind, hm, Bool.false_eq_true,
      if_false, applyBatch, List.map_cons]
    exact ih hms

theorem execBatch_error_of_any {t : RawTable} {msgs : List Msg}
    {channel : String} {now : Nat} {fails : Msg → Bool}
    (h : msgs.any fails = true) :
    execBatch t msgs channel now fails = Except.error () := by
  induction msgs generalizing t with
  | nil => simp at h
  | cons m ms ih =>
    by_cases hm : fails m = true
    · simp only [execBatch, List.foldl_cons, Except.bind, hm, if_true]
      exact foldl_except_error _ ms ()
    · have hm2 : fails m = false := by
        cases hfm : fails m
        · rfl
        · exact absurd hfm hm
      have hms : ms.any fails = true := by
        simp [List.any_cons, hm2] at h
        simpa using h
      simp only [execBatch, List.foldl_cons, Except.bind, hm2,
        Bool.false_eq_true, if_false]
      exact ih hms

theorem rowKey_mkRow (channel : String) (now : Nat) (m : Msg) :
    rowKey (mkRow channel now m) = msgKey channel m := rfl

theorem lastWith_map {κ α ρ : Type} [DecidableEq κ] (key : ρ → κ)
    (keyA : α → κ) (f : α → ρ) (hf : ∀ a, key (f a) = keyA a)
    (l : List α) (k : κ) :
    lastWith key (l.map f) k = (lastWith keyA l k).map f := by
  induction l with
  | nil => simp [lastWith]
  | cons a l ih =>
    rw [List.map_cons, lastWith_cons, lastWith_cons, ih]
    cases h : lastWith keyA l k with
    | some x => rfl
    | none =>
      by_cases hk : keyA a = k
      · simp [hf a, hk]
      · simp [hf a, hk]

theorem applyBatch_twice (t : RawTable) (msgs : List Msg) (channel : String)
    (now1 now2 : Nat) :
    applyBatch (applyBatch t msgs channel now1) msgs channel now2
      = applyBatch t msgs channel now2 := by
  funext k
  simp only [applyBatch]
  rw [applyKV_apply, applyKV_apply, applyKV_apply]
  rw [lastWith_map rowKey (msgKey channel) (mkRow channel now1)
        (rowKey_mkRow channel now1) msgs k,
      lastWith_map rowKey (msgKey channel) (mkRow channel now2)
        (rowKey_mkRow channel now2) msgs k]
  cases h : lastWith (msgKey channel) msgs k with
  | some m => rfl
  | none => rfl

theorem insertMessages_ok_inv {t : RawTable} {msgs : List Msg}
    {channel : String} {now : Nat} {fails : Msg → Bool}
    {t2 : RawTable} {n : Nat}
    (h : insertMessages t msgs channel now fails = Except.ok (t2, n)) :
    t2 = applyBatch t msgs channel now ∧ n = msgs.length
      ∧ ∀ m ∈ msgs, fails m = false := by
  by_cases hemp : msgs.isEmpty
  · have hnil : msgs = [] := List.isEmpty_iff.mp hemp
    subst hnil
    simp only [insertMessages, List.isEmpty_nil, if_true, Except.ok.injEq,
      Prod.mk.injEq] at h
    refine ⟨?_, ?_, ?_⟩
    · rw [← h.1]; rfl
    · rw [← h.2]; rfl
    · intro m hm; cases hm
  · cases hany : msgs.any fails with
    | true =>
      rw [insertMessages, if_neg hemp, execBatch_error_of_any hany] at h
      cases h
    | false =>
      have hall : ∀ m ∈ msgs, fails m = false := by
        intro m hm
        cases hfm : fails m
        · rfl
        · exact absurd (List.any_eq_true.mpr ⟨m, hm, hfm⟩)
            (by rw [hany]; exact Bool.false_ne_true)
      rw [insertMessages, if_neg hemp, execBatch_ok_of_all hall] at h
      cases h
      exact ⟨rfl, rfl, hall⟩

theorem loadYoloResults_ok_inv {t : DTable} {rows : List DCsvRow}
    {now : Nat} {fails : DCsvRow → Bool} {t2 : DTable} {n : Nat}
    (h : loadYoloResults t (some rows) now fails = Except.ok (t2, n)) :
    t2 = snapshotTable rows now ∧ n = rows.length := by
  by_cases hany : rows.any fails = true
  · rw [loadYoloResults] at h
    simp only [hany, if_true] at h
    cases h
  · rw [loadYoloResults] at h
    simp only [hany, if_false] at h
    cases h
    exact ⟨rfl, rfl⟩

/-! ## Claim theorems -/

theorem contains_person_iff (D : List Detection) :
    ((detectedClasses D).contains PERSON_CLASS = true)
      ↔ ∃ d ∈ D, d.cls = PERSON_CLASS := by
  simp [detectedClasses, List.mem_map, eq_comm]

theorem contains_object_iff (D : List Detection) :
    ([BOTTLE_CLASS, CUP_CLASS, BOWL_CLASS].any
        (fun c => (detectedClasses D).contains c) = true)
      ↔ ∃ d ∈ D,
          d.cls = BOTTLE_CLASS ∨ d.cls = CUP_CLASS ∨ d.cls = BOWL_CLASS := by
  constructor
  · intro h
    simp only [List.any_eq_true] at h
    rcases h with ⟨c, hc, hcont⟩
    have : c ∈ detectedClasses D := by simpa using hcont
    rcases List.mem_map.mp this with ⟨d, hd, hdc⟩
    refine ⟨d, hd, ?_⟩
    rw [hdc]
    simpa using hc
  · intro h
    rcases h with ⟨d, hd, hcase⟩
    simp only [List.any_eq_true]
    have hmem : d.cls ∈ detectedClasses D :=
      List.mem_map.mpr ⟨d, hd, rfl⟩
    rcases hcase with h1 | h2 | h3
    · exact ⟨BOTTLE_CLASS, by simp, by simpa [← h1] using hmem⟩
    · exact ⟨CUP_CLASS, by simp, by simpa [← h2] using hmem⟩
    · exact ⟨BOWL_CLASS, by simp, by simpa [← h3] using hmem⟩

/-- C1: `classify_image` realises the 2×2 decision table of the spec — the
category is `promotional` exactly when the detections contain a person
(class 0) and a product (class 39, 41 or 46), `product_display` exactly
when a product but no person is present, `lifestyle` exactly when a person
but no product is present, and `other` exactly when neither is; and on
empty detections it returns `other` with the empty confidence map, while
`process_image` then reports top confidence 0. -/
theorem classify_image_decision_table (D : List Detection) :
    ((classifyImage D).1 = "promotional" ↔
      (∃ d ∈ D, d.cls = PERSON_CLASS) ∧
      (∃ d ∈ D, d.cls = BOTTLE_CLASS ∨ d.cls = CUP_CLASS ∨ d.cls = BOWL_CLASS)) ∧
    ((classifyImage D).1 = "product_display" ↔
      (∃ d ∈ D, d.cls = BOTTLE_CLASS ∨ d.cls = CUP_CLASS ∨ d.cls = BOWL_CLASS) ∧
      ¬ (∃ d ∈ D, d.cls = PERSON_CLASS)) ∧
    ((classifyImage D).1 = "lifestyle" ↔
      (∃ d ∈ D, d.cls = PERSON_CLASS) ∧
      ¬ (∃ d ∈ D, d.cls = BOTTLE_CLASS ∨ d.cls = CUP_CLASS ∨ d.cls = BOWL_CLASS)) ∧
    ((classifyImage D).1 = "other" ↔
      ¬ (∃ d ∈ D, d.cls = PERSON_CLASS) ∧
      ¬ (∃ d ∈ D, d.cls = BOTTLE_CLASS ∨ d.cls = CUP_CLASS ∨ d.cls = BOWL_CLASS)) ∧
    ((classifyImage ([] : List Detection)).1 = "other"
      ∧ (∀ c : Nat, (classifyImage ([] : List Detection)).2 c = none)
      ∧ topConfidence [] = 0) := by
  have hP := contains_person_iff D
  have hO := contains_object_iff D
  have hempty : (classifyImage ([] : List Detection)).1 = "other"
      ∧ (∀ c : Nat, (classifyImage ([] : List Detection)).2 c = none)
      ∧ topConfidence [] = 0 := ⟨rfl, fun c => rfl, rfl⟩
  cases hp : (detectedClasses D).contains PERSON_CLASS with
  | true =>
    have hPer : ∃ d ∈ D, d.cls = PERSON_CLASS := hP.mp hp
    cases ho : [BOTTLE_CLASS, CUP_CLASS, BOWL_CLASS].any
        (fun c => (detectedClasses D).contains c) with
    | true =>
      have hObj : ∃ d ∈ D,
          d.cls = BOTTLE_CLASS ∨ d.cls = CUP_CLASS ∨ d.cls = BOWL_CLASS :=
        hO.mp ho
      have hcat : (classifyImage D).1 = "promotional" := by
        simp only [classifyImage, hp, ho]; decide
      refine ⟨⟨fun _ => ⟨hPer, hObj⟩, fun _ => hcat⟩, ?_, ?_, ?_, hempty⟩
      · constructor
        · intro h; rw [hcat] at h; exact absurd h (by decide)
        · intro h; exact absurd hPer h.2
      · constructor
        · intro h; rw [hcat] at h; exact absurd h (by decide)
        · intro h; exact absurd hObj h.2
      · constructor
        · intro h; rw [hcat] at h; exact absurd h (by decide)
        · intro h; exact absurd hPer h.1
    | false =>
      have hNoObj : ¬ ∃ d ∈ D,
          d.cls = BOTTLE_CLASS ∨ d.cls = CUP_CLASS ∨ d.cls = BOWL_CLASS :=
        fun hex => Bool.false_ne_true (ho ▸ hO.mpr hex)
      have hcat : (classifyImage D).1 = "lifestyle" := by
        simp only [classifyImage, hp, ho]; decide
      refine ⟨?_, ?_, ⟨fun _ => ⟨hPer, hNoObj⟩, fun _ => hcat⟩, ?_, hempty⟩
      · constructor
        · intro h; rw [hcat] at h; exact absurd h (by decide)
        · intro h; exact absurd h.2 hNoObj
      · constructor
        · intro h; rw [hcat] at h; exact absurd h (by decide)
        · intro h; exact absurd h.1 hNoObj
      · constructor
        · intro h; rw [hcat] at h; exact absurd h (by decide)
        · intro h; exact absurd hPer h.1
  | false =>
    have hNoPer : ¬ ∃ d ∈ D, d.cls = PERSON_CLASS :=
      fun hex => Bool.false_ne_true (hp ▸ hP.mpr hex)
    cases ho : [BOTTLE_CLASS, CUP_CLASS, BOWL_CLASS].any
        (fun c => (detectedClasses D).contains c) with
    | true =>
      have hObj : ∃ d ∈ D,
          d.cls = BOTTLE_CLASS ∨ d.cls = CUP_CLASS ∨ d.cls = BOWL_CLASS :=
        hO.mp ho
      have hcat : (classifyImage D).1 = "product_display" := by
        simp only [classifyImage, hp, ho]; decide
      refine ⟨?_, ⟨fun _ => ⟨hObj, hNoPer⟩, fun _ => hcat⟩, ?_, ?_, hempty⟩
      · constructor
        · intro h; rw [hcat] at h; exact absurd h (by decide)
        · intro h; exact absurd h.1 hNoPer
      · constructor
        · intro h; rw [hcat] at h; exact absurd h (by decide)
        · intro h; exact absurd h.1 hNoPer
      · constructor
        · intro h; rw [hcat] at h; exact absurd h (by decide)
        · intro h; exact absurd hObj h.2
    | false =>
      have hNoObj : ¬ ∃ d ∈ D,
          d.cls = BOTTLE_CLASS ∨ d.cls = CUP_CLASS ∨ d.cls = BOWL_CLASS :=
        fun hex => Bool.false_ne_true (ho ▸ hO.mpr hex)
      have hcat : (classifyImage D).1 = "other" := by
        simp only [classifyImage, hp, ho]; decide
      refine ⟨?_, ?_, ?_, ⟨fun _ => ⟨hNoPer, hNoObj⟩, fun _ => hcat⟩, hempty⟩
      · constructor
        · intro h; rw [hcat] at h; exact absurd h (by decide)
        · intro h; exact absurd h.1 hNoPer
      · constructor
        · intro h; rw [hcat] at h; exact absurd h (by decide)
        · intro h; exact absurd h.1 hNoObj
      · constructor
        · intro h; rw [hcat] at h; exact absurd h (by decide)
        · intro h; exact absurd h.1 hNoPer

/-- C2 counterexample: the claim says the confidence map keeps the maximum
confidence per class, but `class_confidences` is a dict comprehension in
which the last detection of a class wins.  On two person detections with
confidences 0.9 then 0.5, the map holds 0.5 while the per-class maximum is
0.9. -/
theorem classify_confidence_map_not_max :
    (classifyImage dupClassDetections).2 0 = some (mkRat 1 2)
      ∧ specMaxConfidence dupClassDetections 0 = some (mkRat 9 10)
      ∧ (classifyImage dupClassDetections).2 0
          ≠ specMaxConfidence dupClassDetections 0 := by
  refine ⟨by decide, by decide, by decide⟩

/-- C2 amended: the confidence map returned by `classify_image` maps every
class id `c` to the confidence of the last detection of class `c` in the
input order (later duplicates overwrite earlier ones), and to nothing when
no detection has class `c`. -/
theorem classify_confidence_map_last (D : List Detection) (c : Nat) :
    (classifyImage D).2 c
      = (lastWith Detection.cls D c).map Detection.confidence := by
  show classConfidences D c = _
  rw [classConfidences, applyKV_apply]
  cases h : lastWith Detection.cls D c with
  | some d => rfl
  | none => rfl

/-- C3: upsert overwrite law.  Loading a record and then a second record
with the same natural key leaves the table mapping that key to exactly the
row built from the second record — every stored field, including nullable
ones, is the second record's field, so a null in the new record overwrites
a non-null old value — and leaves every other key untouched.  (The table is
keyed by the primary key of `raw.telegram_messages`, so "exactly one row"
per key is structural.) -/
theorem upsert_overwrite_law (t : RawTable) (mA mB : Msg) (channel : String)
    (t1 t2 : Nat) (fails : Msg → Bool) (tA tB : RawTable) (n1 n2 : Nat)
    (hk : msgKey channel mB = msgKey channel mA)
    (h1 : insertMessages t [mA] channel t1 fails = Except.ok (tA, n1))
    (h2 : insertMessages tA [mB] channel t2 fails = Except.ok (tB, n2)) :
    tB (msgKey channel mA) = some (mkRow channel t2 mB)
      ∧ ∀ k, k ≠ msgKey channel mA → tB k = tA k := by
  obtain ⟨htB, _, _⟩ := insertMessages_ok_inv h2
  subst htB
  constructor
  · show (if rowKey (mkRow channel t2 mB) = msgKey channel mA then _ else _)
      = _
    rw [rowKey_mkRow, hk, if_pos rfl]
    rfl
  · intro k hkne
    show (if rowKey (mkRow channel t2 mB) = k then _ else _) = _
    rw [rowKey_mkRow, hk, if_neg (fun hcontra => hkne hcontra.symm)]

/-- C4: upsert idempotence.  If a batch loads successfully, loading the
same batch again from the resulting table gives the same outcome (table
and count) as loading it once from the original table: with every field
replaced on conflict, the second pass rewrites each key with the same
winning record. -/
theorem upsert_idempotent (t : RawTable) (msgs : List Msg) (channel : String)
    (t1 t2 : Nat) (fails : Msg → Bool) (tA : RawTable) (n1 : Nat)
    (h1 : insertMessages t msgs channel t1 fails = Except.ok (tA, n1)) :
    insertMessages tA msgs channel t2 fails
      = insertMessages t msgs channel t2 fails := by
  obtain ⟨htA, hn, hall⟩ := insertMessages_ok_inv h1
  subst htA
  by_cases hemp : msgs.isEmpty
  · have hnil : msgs = [] := List.isEmpty_iff.mp hemp
    subst hnil
    rfl
  · rw [insertMessages, insertMessages, if_neg hemp, if_neg hemp,
        execBatch_ok_of_all hall, execBatch_ok_of_all hall, applyBatch_twice]

theorem upsert_overwrite_law_witness :
    applyBatch (applyBatch emptyRaw [msgA] "x" 0) [msgB] "x" 1
        (msgKey "x" msgA)
      = some (mkRow "x" 1 msgB) :=
  (upsert_overwrite_law emptyRaw msgA msgB "x" 0 1 noFail
    (applyBatch emptyRaw [msgA] "x" 0)
    (applyBatch (applyBatch emptyRaw [msgA] "x" 0) [msgB] "x" 1) 1 1
    rfl rfl rfl).1

theorem upsert_idempotent_witness :
    insertMessages (applyBatch emptyRaw [msgA] "x" 0) [msgA] "x" 1 noFail
      = insertMessages emptyRaw [msgA] "x" 1 noFail :=
  upsert_idempotent emptyRaw [msgA] "x" 0 1 noFail
    (applyBatch emptyRaw [msgA] "x" 0) 1 rfl

theorem lastWith_nodup {κ ρ : Type} [DecidableEq κ] (key : ρ → κ)
    {rs : List ρ} (hnd : (rs.map key).Nodup) {r : ρ} (hr : r ∈ rs) :
    lastWith key rs (key r) = some r := by
  induction rs with
  | nil => cases hr
  | cons x rs ih =>
    rw [List.map_cons, List.nodup_cons] at hnd
    rcases List.mem_cons.mp hr with hx | hx
    · subst hx
      have hnone : lastWith key rs (key r) = none := by
        rw [lastWith_eq_none_iff]
        intro y hy hky
        exact hnd.1 (hky ▸ List.mem_map.mpr ⟨y, hy, rfl⟩)
      rw [lastWith_cons, hnone, if_pos rfl]
    · rw [lastWith_cons, ih hnd.2 hx]

theorem snapshotTable_apply (rows : List DCsvRow) (now : Nat) (k : DKey) :
    snapshotTable rows now k
      = match lastWith dkey rows k with
        | some r => some (r, now)
        | none => none := by
  rw [snapshotTable, applyKV_apply]
  cases lastWith dkey rows k with
  | some r => rfl
  | none => rfl

/-- C5: detection-loader snapshot law.  After successfully loading snapshot
S1 and then snapshot S2 (S2 with distinct natural keys, disjoint from
S1's), the destination table holds exactly S2's rows: every S2 row is
present under its key, every S1 key is absent, and every stored row comes
from S2 — because each load truncates the whole table before inserting the
new snapshot. -/
theorem detection_snapshot_law (t : DTable) (S1 S2 : List DCsvRow)
    (now1 now2 : Nat) (fails : DCsvRow → Bool) (t1 t2 : DTable) (n1 n2 : Nat)
    (h1 : loadYoloResults t (some S1) now1 fails = Except.ok (t1, n1))
    (h2 : loadYoloResults t1 (some S2) now2 fails = Except.ok (t2, n2))
    (hnd : (S2.map dkey).Nodup)
    (hdisj : ∀ r1 ∈ S1, ∀ r2 ∈ S2, dkey r2 ≠ dkey r1) :
    (∀ r ∈ S2, t2 (dkey r) = some (r, now2))
      ∧ (∀ r ∈ S1, t2 (dkey r) = none)
      ∧ (∀ k v, t2 k = some v → v.1 ∈ S2 ∧ dkey v.1 = k ∧ v.2 = now2) := by
  obtain ⟨ht2, _⟩ := loadYoloResults_ok_inv h2
  subst ht2
  refine ⟨?_, ?_, ?_⟩
  · intro r hr
    rw [snapshotTable_apply, lastWith_nodup dkey hnd hr]
  · intro r hr
    have hnone : lastWith dkey S2 (dkey r) = none := by
      rw [lastWith_eq_none_iff]
      intro r2 hr2
      exact hdisj r hr r2 hr2
    rw [snapshotTable_apply, hnone]
  · intro k v hv
    rw [snapshotTable_apply] at hv
    cases hlw : lastWith dkey S2 k with
    | some r =>
      rw [hlw] at hv
      cases hv
      have hm := lastWith_mem dkey S2 k r hlw
      exact ⟨hm.1, hm.2, rfl⟩
    | none =>
      rw [hlw] at hv
      cases hv

theorem detection_snapshot_law_witness :
    snapshotTable [drowB] 1 (dkey drowB) = some (drowB, 1) :=
  (detection_snapshot_law emptyD [drowA] [drowB] 0 1 noFailD
    (snapshotTable [drowA] 0) (snapshotTable [drowB] 1) 1 1 rfl rfl
    (by decide) (by decide)).1 drowB (List.mem_singleton.mpr rfl)

/-- C6 counterexample: the claim says a failure between the clear and the
completed insert leaves the table empty.  In fact the TRUNCATE and the
inserts share the one uncommitted transaction, so the failure rolls
everything back: with prior committed row `drowA` and a failing insert of
`drowB`, the run is fatal yet the table still holds `drowA` — it is not
empty. -/
theorem detection_failed_load_keeps_prior_rows :
    (loadYoloRun (snapshotTable [drowA] 0) (some [drowB]) 1 failsOnTwo).2
        = none
      ∧ (loadYoloRun (snapshotTable [drowA] 0) (some [drowB]) 1 failsOnTwo).1
          (dkey drowA) = some (drowA, 0) := by
  exact ⟨rfl, by decide⟩

/-- C6 amended: the clear-plus-insert is all-or-nothing for consumers —
either the whole new snapshot is committed and its size returned, or the
failure is surfaced as fatal and the table is left in its prior committed
state (not empty, and never a mix of old rows with part of the new
snapshot). -/
theorem detection_load_all_or_nothing (t : DTable) (rows : List DCsvRow)
    (now : Nat) (fails : DCsvRow → Bool) :
    loadYoloRun t (some rows) now fails
        = (snapshotTable rows now, some rows.length)
      ∨ loadYoloRun t (some rows) now fails = (t, none) := by
  by_cases h : rows.any fails = true
  · right
    simp [loadYoloRun, loadYoloResults, h]
  · left
    simp [loadYoloRun, loadYoloResults, h]

/-- C10: when the detection-results CSV file does not exist, the load
function returns 0 and the destination table is completely untouched — in
particular the TRUNCATE never runs. -/
theorem detection_missing_csv_noop (t : DTable) (now : Nat)
    (fails : DCsvRow → Bool) :
    loadYoloRun t none now fails = (t, some 0) := rfl

set_option maxRecDepth 100000 in
/-- C7 counterexample: the claim says each group of ≤1000 records commits
in its own transaction, a mid-batch failure rolls back only that batch,
and the loader continues.  With 1001 records whose last statement (in the
second page) fails, the claim predicts the first 1000 records stay
persisted and the call completes; in the code `execute_batch` pages share
the single transaction committed at line 151, so the rollback at line 155
discards everything — record 0 is absent — and the exception is re-raised
instead of continuing. -/
theorem insert_pages_share_one_transaction :
    (insertRun emptyRaw manyMsgs "ch" 0 failsLastMsg).2 = none
      ∧ (insertRun emptyRaw manyMsgs "ch" 0 failsLastMsg).1 (0, "ch")
          = none := by
  have hany : manyMsgs.any failsLastMsg = true := by decide
  have hne : ¬ manyMsgs.isEmpty = true := by decide
  have herr : insertMessages emptyRaw manyMsgs "ch" 0 failsLastMsg
      = Except.error () := by
    unfold insertMessages
    rw [if_neg hne, execBatch_error_of_any hany]
  unfold insertRun
  rw [herr]
  exact ⟨rfl, rfl⟩

/-- C7 amended: records are sent in pages of at most 1000 statements per
network round-trip, but all pages of one `insert_messages` call execute in
a single transaction with one commit; a failing statement anywhere makes
the whole call roll back — no record of the call is persisted — and the
error propagates instead of the loader continuing. -/
theorem insert_failure_rolls_back_call (t : RawTable) (msgs : List Msg)
    (channel : String) (now : Nat) (fails : Msg → Bool)
    (h : msgs.any fails = true) :
    insertRun t msgs channel now fails = (t, none) := by
  have hne : ¬ msgs.isEmpty = true := by
    cases msgs with
    | nil => simp at h
    | cons a l => simp
  have herr : insertMessages t msgs channel now fails = Except.error () := by
    unfold insertMessages
    rw [if_neg hne, execBatch_error_of_any h]
  unfold insertRun
  rw [herr]

theorem insert_failure_rolls_back_call_witness :
    insertRun emptyRaw [msgA] "x" 0 (fun m => m.messageId == 1)
      = (emptyRaw, none) :=
  insert_failure_rolls_back_call emptyRaw [msgA] "x" 0
    (fun m => m.messageId == 1) (by decide)

/-- C8 (evaluating the code at the failing input): when the database
connection attempt raises, `main` of `load_to_postgres.py` logs the error
and returns normally, so the process exits with status 0 and the
`load_raw_to_postgres` op — which fails only on a non-zero exit — reports
the stage as succeeded, for either behaviour of the never-reached insert
phase.  The claim (and the spec) says this failure is fatal and the stage
aborts. -/
theorem connection_failure_reports_success (insertRaises : Bool) :
    subprocessCheck (loadToPostgresExit false insertRaises)
      = StageStatus.succeeded := rfl

/-- C9 counterexample: the claim says a failing secondary invocation is
recorded in the materialization metadata.  For the `load_yolo_results` op
the `fct_image_detections` rebuild result is discarded: the op's outcome —
status and emitted metadata keys — is identical whether the rebuild exits
1 or 0, so the warning is recorded nowhere (and the stage still
succeeds). -/
theorem yolo_rebuild_failure_not_recorded :
    loadYoloResultsOp 0 1 = loadYoloResultsOp 0 0
      ∧ (loadYoloResultsOp 0 1).status = StageStatus.succeeded :=
  ⟨rfl, rfl⟩

/-- C9 amended: a stage fails exactly when its primary invocation exits
non-zero and succeeds exactly when it exits zero, regardless of the
secondary invocation's exit status; the dbt test outcome is recorded as
the `test_status` materialization metadata of the transform stage, while
the `fct_image_detections` rebuild outcome of the enrichment-load stage is
not recorded at all; in neither case does a secondary failure fail the
stage. -/
theorem stage_status_from_primary_exit (p s : Nat) :
    ((runDbtTransformations p s).status = StageStatus.succeeded ↔ p = 0)
      ∧ ((loadYoloResultsOp p s).status = StageStatus.succeeded ↔ p = 0)
      ∧ ((runDbtTransformations p s).status = StageStatus.failed ↔ p ≠ 0)
      ∧ ((loadYoloResultsOp p s).status = StageStatus.failed ↔ p ≠ 0)
      ∧ (runDbtTransformations 0 s).testStatusMeta
          = some (if s = 0 then "passed" else "failed")
      ∧ loadYoloResultsOp p s = loadYoloResultsOp p 0 := by
  by_cases hp : p = 0 <;>
    simp [runDbtTransformations, loadYoloResultsOp, hp]
